import Mathlib

/-!
Verification of qonnx `src/qonnx/util/range_analysis.py` (interval range
analysis over ONNX graphs).  Real-valued tensor elements are modelled as
rationals; numpy 1-D arrays as `List ℚ`; a range bound that is either a
scalar or a 1-D array as `VecBound`.  Integer-domain values produced by the
scaled-integer reconstruction pass are rationals obtained by casting `ℤ`.
-/

set_option autoImplicit false

/-- A range bound as passed to the interval kernel: either a scalar or a
1-D per-channel array (numpy broadcasts the scalar against the row). -/
inductive VecBound where
  | scl (v : ℚ)
  | vec (vs : List ℚ)
deriving DecidableEq

/-- Numpy broadcast of a bound against a length-`n` vector. -/
def bcast : VecBound → Nat → List ℚ
  | VecBound.scl v, n => List.replicate n v
  | VecBound.vec vs, _ => vs

/-- Dot product of two lists, modelling `(row * vec).sum(axis=1)` for one
row after numpy broadcast. -/
def dotprod (a b : List ℚ) : ℚ := (List.zipWith (fun x y => x * y) a b).sum

/-- Model of `np.where(matrix > 0, vec_max, vec_min)` restricted to one row
(range_analysis.py line 70): the operand choice maximising each term. -/
def row_max_vector (row vmin vmax : List ℚ) : List ℚ :=
  List.zipWith (fun a p => if a > 0 then p.2 else p.1) row (vmin.zip vmax)

/-- Model of `np.where(matrix > 0, vec_min, vec_max)` restricted to one row
(range_analysis.py line 71): the operand choice minimising each term. -/
def row_min_vector (row vmin vmax : List ℚ) : List ℚ :=
  List.zipWith (fun a p => if a > 0 then p.1 else p.2) row (vmin.zip vmax)

/-- Model of `calculate_matvec_accumulator_extremum` (range_analysis.py
lines 65-74): per row of `matrix`, the extremal values of the dot product
over the input box `[vmin, vmax]`, returned as `(acc_min, acc_max)`. -/
def calculate_matvec_accumulator_extremum (matrix : List (List ℚ))
    (vmin vmax : VecBound) : List ℚ × List ℚ :=
  (matrix.map (fun row =>
      dotprod row (row_min_vector row (bcast vmin row.length) (bcast vmax row.length))),
   matrix.map (fun row =>
      dotprod row (row_max_vector row (bcast vmin row.length) (bcast vmax row.length))))

/-- Concrete matrix-vector product `A·x`, the quantity the kernel bounds. -/
def matvec (matrix : List (List ℚ)) (x : List ℚ) : List ℚ :=
  matrix.map (fun row => dotprod row x)

/-- Elementwise `≤` between two bounds of matching kind (scalar/scalar or
vector/vector); mixed kinds do not arise in the analysis. -/
def VB_le : VecBound → VecBound → Prop
  | VecBound.scl a, VecBound.scl b => a ≤ b
  | VecBound.vec a, VecBound.vec b => List.Forall₂ (fun x y => x ≤ y) a b
  | _, _ => False

instance decidableForall₂Le :
    ∀ (l₁ l₂ : List ℚ), Decidable (List.Forall₂ (fun x y : ℚ => x ≤ y) l₁ l₂)
  | [], [] => isTrue List.Forall₂.nil
  | [], _ :: _ => isFalse (fun h => by cases h)
  | _ :: _, [] => isFalse (fun h => by cases h)
  | a :: as, b :: bs =>
    match inferInstanceAs (Decidable (a ≤ b)), decidableForall₂Le as bs with
    | isTrue h₁, isTrue h₂ => isTrue (List.Forall₂.cons h₁ h₂)
    | isFalse h₁, _ => isFalse (fun h => by cases h; exact h₁ (by assumption))
    | _, isFalse h₂ => isFalse (fun h => by cases h; exact h₂ (by assumption))

instance : ∀ (a b : VecBound), Decidable (VB_le a b)
  | VecBound.scl a, VecBound.scl b => inferInstanceAs (Decidable (a ≤ b))
  | VecBound.scl _, VecBound.vec _ => isFalse (fun h => h)
  | VecBound.vec _, VecBound.scl _ => isFalse (fun h => h)
  | VecBound.vec a, VecBound.vec b => decidableForall₂Le a b

/-- Model of `calc_gemm_range` (range_analysis.py lines 77-121) after its
constancy asserts: `weights` is the constant weight matrix (already in
`(rows, cols)` layout, `transB` honored upstream) and `bias` the constant
bias vector if a third input is present.  The kernel result is scaled by
`alpha` on both bounds, then shifted by `beta * bias`. -/
def calc_gemm_range (alpha beta : ℚ) (weights : List (List ℚ))
    (bias : Option (List ℚ)) (imin imax : VecBound) : List ℚ × List ℚ :=
  let p := calculate_matvec_accumulator_extremum weights imin imax
  let pmin := p.1.map (fun x => x * alpha)
  let pmax := p.2.map (fun x => x * alpha)
  match bias with
  | some bs =>
    (List.zipWith (fun x b => x + beta * b) pmin bs,
     List.zipWith (fun x b => x + beta * b) pmax bs)
  | none => (pmin, pmax)

/-- Model of `np.repeat(v, k)`: each element repeated `k` times. -/
def repeatEach (vs : List ℚ) (k : Nat) : List ℚ :=
  (vs.map (fun v => List.replicate k v)).flatten

/-- One iteration of the Conv loop body (range_analysis.py lines 180-189):
the kernel applied to a single weight row, with `.item()` extraction. -/
def rowExtremum (w_slice lo hi : List ℚ) : ℚ × ℚ :=
  (dotprod w_slice (row_min_vector w_slice lo hi),
   dotprod w_slice (row_max_vector w_slice lo hi))

/-- True exactly on `Except.ok` results. -/
def exceptOk {α : Type} : Except String α → Bool
  | Except.ok _ => true
  | Except.error _ => false

/-- Model of `calc_conv_range` (range_analysis.py lines 143-191).  Python
asserts become `Except.error`.  `wmin`/`wmax` are the weight tensor bounds
with shape `(ofm, ifm, kernel-volume)` (trailing spatial dims already
flattened, which commutes with the source's single `reshape`);
`w_is_init` mirrors `weight_range_info.is_initializer`.  Note the source
computes `is_depthwise = groups > 1` and never compares `groups` with the
output-channel count; the reassignment `conv_ifm = conv_ofm` performed for
the depthwise case does not affect any later expression of the excerpt. -/
def calc_conv_range (w_is_init : Bool) (num_inputs : Nat)
    (wmin wmax : List (List (List ℚ))) (group : Option Int)
    (imin imax : VecBound) : Except String (List ℚ × List ℚ) :=
  if num_inputs ≠ 2 then Except.error "Found unsupported Conv with bias"
  else if w_is_init = false then Except.error "Uninitialized Conv weights"
  else if wmin ≠ wmax then Except.error "Non-constant Conv weights in range info"
  else
    let weights := wmin.map List.flatten
    let conv_ofm := wmin.length
    let k_total := (weights.headD []).length / (wmin.headD []).length
    let groups : Int := group.getD 1
    let is_depthwise := groups > 1
    match imin, imax with
    | VecBound.vec iminv, VecBound.vec imaxv =>
      let imin_rep := repeatEach iminv k_total
      let imax_rep := repeatEach imaxv k_total
      let res := (List.range conv_ofm).map (fun i =>
        let w_slice := weights.getD i []
        if is_depthwise then
          rowExtremum w_slice ((imin_rep.drop (i * k_total)).take k_total)
            ((imax_rep.drop (i * k_total)).take k_total)
        else
          rowExtremum w_slice imin_rep imax_rep)
      Except.ok (res.map Prod.fst, res.map Prod.snd)
    | _, _ =>
      let res := (List.range conv_ofm).map (fun i =>
        let w_slice := weights.getD i []
        rowExtremum w_slice (bcast imin w_slice.length) (bcast imax w_slice.length))
      Except.ok (res.map Prod.fst, res.map Prod.snd)

/-- Minimum of a list, modelling `np.min` over the non-channel axes of one
channel slice (0 on an empty slice, which numpy rejects upstream). -/
def listMin : List ℚ → ℚ
  | [] => 0
  | a :: as => as.foldl min a

/-- Maximum of a list, modelling `np.max` over the non-channel axes. -/
def listMax : List ℚ → ℚ
  | [] => 0
  | a :: as => as.foldl max a

/-- Channel-wise reduction of one evaluated output tensor, viewed
channel-major (`out.min(axis=axes_to_min)` / `out.max(...)`,
range_analysis.py lines 305-312).  When the other axes are absent each
channel slice is a singleton and min and max coincide with the raw value. -/
def chanwise (out : List (List ℚ)) : List ℚ × List ℚ :=
  (out.map listMin, out.map listMax)

/-- Running elementwise min/max merge across prototype combinations
(`np.minimum`/`np.maximum`, range_analysis.py lines 313-318); the first
combination initialises the running state (`running_min[oind] is None`). -/
def running_merge (cs : List (List ℚ × List ℚ)) : List ℚ × List ℚ :=
  match cs with
  | [] => ([], [])
  | c :: rest =>
    rest.foldl (fun acc p =>
      (List.zipWith min acc.1 p.1, List.zipWith max acc.2 p.2)) c

/-- Model of the sampling core of `calc_monotonic_range` (range_analysis.py
lines 298-320) for a single output: `samples` is the list of channel-major
evaluated outputs, one per prototype combination, as produced by the
external node evaluator; the result is the merged `(running_min,
running_max)` pair stored as the output range. -/
def calc_monotonic_range (samples : List (List (List ℚ))) : List ℚ × List ℚ :=
  running_merge (samples.map chanwise)

/-- Model of `calc_range_outdtype` (range_analysis.py lines 323-327): the
output range is the declared datatype's representable `(min, max)`. -/
def calc_range_outdtype (dt_min dt_max : ℚ) : ℚ × ℚ := (dt_min, dt_max)

/-- One element of a stored range: a scalar or a per-channel 1-D array. -/
inductive REl where
  | scl (v : ℚ)
  | arr (vs : List ℚ)
deriving DecidableEq

/-- Model of `simplify_range` (range_analysis.py lines 376-389): a
channelwise range whose min entries are all equal and whose max entries are
all equal collapses to the scalar range; anything else is returned
unchanged.  (`all(rmin == rmin[0])` requires a first element, hence the
nonempty-array patterns.) -/
def simplify_range : REl × REl → REl × REl
  | (REl.arr (a :: as), REl.arr (b :: bs)) =>
    if (a :: as).all (fun x => x == a) && (b :: bs).all (fun x => x == b) then
      (REl.scl a, REl.scl b)
    else (REl.arr (a :: as), REl.arr (b :: bs))
  | r => r

/-- Helper for stuck-channel detection: the `(channel-index, value)` pairs
at positions where min equals max, indices offset by `k`. -/
def stuckPairsAux (k : Nat) : List ℚ → List ℚ → List (Nat × ℚ)
  | a :: as, b :: bs =>
    (if a = b then [(k, a)] else []) ++ stuckPairsAux (k + 1) as bs
  | _, _ => []

/-- Model of `np.nonzero(out_range[0] == out_range[1])[0]` zipped with the
values at those positions (range_analysis.py lines 665-669). -/
def stuckPairs (mins maxs : List ℚ) : List (Nat × ℚ) := stuckPairsAux 0 mins maxs

/-- Stuck-channel pairs of a stored range.  Only array/array ranges yield
entries; a scalar range with distinct bounds yields none (a scalar range
with equal bounds would fault in the source when indexing the value and
does not arise in the properties considered here). -/
def stuck_of_range : REl × REl → List (Nat × ℚ)
  | (REl.arr mins, REl.arr maxs) => stuckPairs mins maxs
  | _ => []

/-- The per-tensor state the walker keeps for a freshly computed output:
its range and the `is_initializer` flag (field `is_init`). -/
structure TRangeInfo where
  range : REl × REl
  is_init : Bool
deriving DecidableEq

/-- Model of the walker's per-node post-processing (range_analysis.py lines
654-670): the rule has filled one `RangeInfo` per output (the input list);
then only `node.output[0]` is examined: if it is not an initializer its
stuck channels are recorded and its range simplified.  The remaining
outputs are left untouched.  Returns the updated per-output entries and the
additions to the stuck-channel report. -/
def walker_postproc (outs : List (String × TRangeInfo)) :
    List (String × TRangeInfo) × List (String × List (Nat × ℚ)) :=
  match outs with
  | [] => ([], [])
  | (name, ri) :: rest =>
    if ri.is_init then ((name, ri) :: rest, [])
    else
      let sc := stuck_of_range ri.range
      ((name, { ri with range := simplify_range ri.range }) :: rest,
       if sc = [] then [] else [(name, sc)])

/-- Model of `set([x[0] for x in schans if x[1] == 0])` (range_analysis.py
line 702): the channel indices stuck at exactly zero.  `np.nonzero` yields
strictly ascending indices, so the set is represented by this list. -/
def zerostuckChans (schans : List (Nat × ℚ)) : List Nat :=
  (schans.filter (fun p => p.2 = 0)).map Prod.fst

/-- Model of the key filter (range_analysis.py lines 688-692): applied
twice when a filter is configured.  `useF` models `key_filter != ""` and
`kf` the substring test `key_filter in k`. -/
def dblKeyFilter {α : Type} (useF : Bool) (kf : String → Bool)
    (r : List (String × α)) : List (String × α) :=
  if useF then (r.filter (fun p => kf p.1)).filter (fun p => kf p.1) else r

/-- Model of `range_analysis` report shaping in stuck-channel mode
(range_analysis.py lines 679-692): the stuck-channel store after key
filtering. -/
def report_stuck (stuck : List (String × List (Nat × ℚ))) (useF : Bool)
    (kf : String → Bool) : List (String × List (Nat × ℚ)) :=
  dblKeyFilter useF kf stuck

/-- Model of `range_analysis` report shaping in zero-stuck-channel mode
(range_analysis.py lines 679-705): key filtering, then per tensor the
channels stuck at zero, dropping tensors left with no entries. -/
def report_zerostuck (stuck : List (String × List (Nat × ℚ))) (useF : Bool)
    (kf : String → Bool) : List (String × List Nat) :=
  (dblKeyFilter useF kf stuck).filterMap (fun p =>
    let z := zerostuckChans p.2
    if z = [] then none else some (p.1, z))

/-- Spec-side re-filtering of a stuck-channel report (spec Scenario 4):
keep only entries whose stuck value is 0, drop the values, and drop any
tensor left with no entries. -/
def refilter_zero (r : List (String × List (Nat × ℚ))) : List (String × List Nat) :=
  r.filterMap (fun p =>
    let kept := p.2.filter (fun e => e.2 = 0)
    if kept = [] then none else some (p.1, kept.map Prod.fst))

/-- Per-tensor seeding result of `calc_range_all_initializers`
(range_analysis.py lines 330-340): the degenerate real range plus optional
integer info. -/
structure SeedInfo where
  range : List ℚ × List ℚ
  int_range : Option (List ℚ × List ℚ)
  scale : Option (List ℚ)
  bias : Option (List ℚ)
  is_init : Bool
deriving DecidableEq

/-- Model of the elementwise test `value % 1 == 0` used to identify
integer-valued constants: a rational has zero fractional part exactly when
its reduced denominator is 1. -/
def isIntValued (v : ℚ) : Bool := v.den == 1

/-- Model of the per-tensor body of `calc_range_all_initializers`
(range_analysis.py lines 330-340): every graph constant receives the
degenerate range `(t, t)` flagged as initializer; when all its elements are
integer-valued it additionally receives `int_range = (t, t)`,
`scale = [1.0]` and `bias = [0.0]`. -/
def seed_init_tensor (t : List ℚ) : SeedInfo :=
  if t.all isIntValued then
    { range := (t, t), int_range := some (t, t), scale := some [1],
      bias := some [0], is_init := true }
  else
    { range := (t, t), int_range := none, scale := none, bias := none,
      is_init := true }

/-- Loop state of the graph-input seeding loop (range_analysis.py lines
631-643) when no initial interval is configured: `range_min`/`range_max`
start as `None` and, once assigned from the first input's datatype, are
never recomputed.  Each list element is the `(idt.min(), idt.max())` pair
of the corresponding graph input's own declared datatype. -/
def seed_inputs_go : Option (ℚ × ℚ) → List (ℚ × ℚ) → List (ℚ × ℚ)
  | _, [] => []
  | none, idt :: rest => idt :: seed_inputs_go (some idt) rest
  | some r, _ :: rest => r :: seed_inputs_go (some r) rest

/-- The ranges seeded for the graph inputs, in graph order, when
`irange == ""` (both running bounds initially unset). -/
def seed_inputs (idts : List (ℚ × ℚ)) : List (ℚ × ℚ) := seed_inputs_go none idts

/-- Model of `np.round`: round half to even (banker's rounding). -/
def npround (x : ℚ) : ℤ :=
  let f := ⌊x⌋
  let r := x - (f : ℚ)
  if r < 1 / 2 then f
  else if 1 / 2 < r then f + 1
  else if f % 2 = 0 then f else f + 1

/-- The scaled-integer consistency relation of the spec:
`real = scale * integer + bias` at both interval endpoints. -/
def intinfo_consistent (rmin rmax imin imax scale bias : ℚ) : Prop :=
  scale * imin + bias = rmin ∧ scale * imax + bias = rmax

/-- Model of the elementwise computation of `calc_intrange_relu`
(range_analysis.py lines 459-484): scale and bias are taken unchanged from
the integer-bearing input; the output integer range is the real output
range inverted through them and rounded with `np.round`.  Returns
`(int_range, scale, bias)` as written to the output's RangeInfo. -/
def calc_intrange_relu (scale bias rmin rmax : ℚ) : (ℚ × ℚ) × ℚ × ℚ :=
  (((npround ((rmin - bias) / scale) : ℚ), (npround ((rmax - bias) / scale) : ℚ)),
   scale, bias)

/-- Model of the elementwise scale/bias derivation shared by
`calc_intrange_linear` and `calc_intrange_linear_allint`
(range_analysis.py lines 510-511 and 546-547):
`S = (range_max - range_min) / (int_range_max - int_range_min)` and
`B = range_max - S * int_range_max`. -/
def calc_intrange_linear_scalebias (rmin rmax imin imax : ℚ) : ℚ × ℚ :=
  let scale := (rmax - rmin) / (imax - imin)
  (scale, rmax - scale * imax)

/-- Range-order property of a fallible rule result: an error trivially
satisfies it, a produced range must be ordered elementwise. -/
def rangeOrderedB : Except String (List ℚ × List ℚ) → Prop
  | Except.ok r => List.Forall₂ (fun a b => a ≤ b) r.1 r.2
  | Except.error _ => True

/-! ## Helper lemmas -/

theorem dotprod_cons (a x : ℚ) (as xs : List ℚ) :
    dotprod (a :: as) (x :: xs) = a * x + dotprod as xs := by
  simp [dotprod]

theorem row_max_vector_cons (a v w : ℚ) (as vs ws : List ℚ) :
    row_max_vector (a :: as) (v :: vs) (w :: ws)
      = (if a > 0 then w else v) :: row_max_vector as vs ws := by
  simp [row_max_vector]

theorem row_min_vector_cons (a v w : ℚ) (as vs ws : List ℚ) :
    row_min_vector (a :: as) (v :: vs) (w :: ws)
      = (if a > 0 then v else w) :: row_min_vector as vs ws := by
  simp [row_min_vector]

theorem dot_le_dot_rowmax (row : List ℚ) : ∀ (vmin x vmax : List ℚ),
    List.Forall₂ (fun p q => p ≤ q) vmin x →
    List.Forall₂ (fun p q => p ≤ q) x vmax →
    dotprod row x ≤ dotprod row (row_max_vector row vmin vmax) := by
  induction row with
  | nil => intro vmin x vmax _ _; simp [dotprod, row_max_vector]
  | cons a as ih =>
    intro vmin x vmax h1 h2
    cases h1 with
    | nil =>
      cases h2 with
      | nil => simp [dotprod, row_max_vector]
    | @cons v x₀ vs xs hv htl =>
      cases h2 with
      | @cons _ w _ ws hx htl₂ =>
        rw [dotprod_cons, row_max_vector_cons, dotprod_cons]
        have hstep : a * x₀ ≤ a * (if a > 0 then w else v) := by
          by_cases hpos : a > 0
          · rw [if_pos hpos]
            exact mul_le_mul_of_nonneg_left hx (le_of_lt hpos)
          · rw [if_neg hpos]
            exact mul_le_mul_of_nonpos_left hv (le_of_not_lt hpos)
        exact add_le_add hstep (ih vs xs ws htl htl₂)

theorem dot_rowmin_le_dot (row : List ℚ) : ∀ (vmin x vmax : List ℚ),
    List.Forall₂ (fun p q => p ≤ q) vmin x →
    List.Forall₂ (fun p q => p ≤ q) x vmax →
    dotprod row (row_min_vector row vmin vmax) ≤ dotprod row x := by
  induction row with
  | nil => intro vmin x vmax _ _; simp [dotprod, row_min_vector]
  | cons a as ih =>
    intro vmin x vmax h1 h2
    cases h1 with
    | nil =>
      cases h2 with
      | nil => simp [dotprod, row_min_vector]
    | @cons v x₀ vs xs hv htl =>
      cases h2 with
      | @cons _ w _ ws hx htl₂ =>
        rw [dotprod_cons, row_min_vector_cons, dotprod_cons]
        have hstep : a * (if a > 0 then v else w) ≤ a * x₀ := by
          by_cases hpos : a > 0
          · rw [if_pos hpos]
            exact mul_le_mul_of_nonneg_left hv (le_of_lt hpos)
          · rw [if_neg hpos]
            exact mul_le_mul_of_nonpos_left hx (le_of_not_lt hpos)
        exact add_le_add hstep (ih vs xs ws htl htl₂)

theorem dot_rowmin_le_rowmax (row : List ℚ) : ∀ (lo hi : List ℚ),
    List.Forall₂ (fun p q => p ≤ q) lo hi →
    dotprod row (row_min_vector row lo hi) ≤ dotprod row (row_max_vector row lo hi) := by
  induction row with
  | nil => intro lo hi _; simp [dotprod, row_min_vector, row_max_vector]
  | cons a as ih =>
    intro lo hi h
    cases h with
    | nil => simp [dotprod, row_min_vector, row_max_vector]
    | @cons l h₀ ls hs hlh htl =>
      rw [row_min_vector_cons, row_max_vector_cons, dotprod_cons, dotprod_cons]
      have hstep : a * (if a > 0 then l else h₀) ≤ a * (if a > 0 then h₀ else l) := by
        by_cases hpos : a > 0
        · rw [if_pos hpos, if_pos hpos]
          exact mul_le_mul_of_nonneg_left hlh (le_of_lt hpos)
        · rw [if_neg hpos, if_neg hpos]
          exact mul_le_mul_of_nonpos_left hlh (le_of_not_lt hpos)
      exact add_le_add hstep (ih ls hs htl)

theorem forall₂_le_replicate (n : Nat) {a b : ℚ} (h : a ≤ b) :
    List.Forall₂ (fun x y => x ≤ y) (List.replicate n a) (List.replicate n b) := by
  induction n with
  | zero => exact List.Forall₂.nil
  | succ m ih =>
    rw [List.replicate_succ, List.replicate_succ]
    exact List.Forall₂.cons h ih

theorem VB_le_bcast {vmin vmax : VecBound} (h : VB_le vmin vmax) (n : Nat) :
    List.Forall₂ (fun x y => x ≤ y) (bcast vmin n) (bcast vmax n) := by
  cases vmin with
  | scl a =>
    cases vmax with
    | scl b => exact forall₂_le_replicate n h
    | vec b => exact absurd h (fun hf => hf)
  | vec a =>
    cases vmax with
    | scl b => exact absurd h (fun hf => hf)
    | vec b => exact h

theorem forall₂_le_append {a b c d : List ℚ}
    (h1 : List.Forall₂ (fun x y => x ≤ y) a b)
    (h2 : List.Forall₂ (fun x y => x ≤ y) c d) :
    List.Forall₂ (fun x y => x ≤ y) (a ++ c) (b ++ d) := by
  induction h1 with
  | nil => exact h2
  | cons h _ ih => exact List.Forall₂.cons h ih

theorem repeatEach_cons (v : ℚ) (vs : List ℚ) (k : Nat) :
    repeatEach (v :: vs) k = List.replicate k v ++ repeatEach vs k := by
  simp [repeatEach]

theorem forall₂_le_repeatEach {a b : List ℚ} (k : Nat)
    (h : List.Forall₂ (fun x y => x ≤ y) a b) :
    List.Forall₂ (fun x y => x ≤ y) (repeatEach a k) (repeatEach b k) := by
  induction h with
  | nil => exact List.Forall₂.nil
  | cons hx _ ih =>
    rw [repeatEach_cons, repeatEach_cons]
    exact forall₂_le_append (forall₂_le_replicate k hx) ih

theorem rowExtremum_le (w : List ℚ) {lo hi : List ℚ}
    (h : List.Forall₂ (fun x y => x ≤ y) lo hi) :
    (rowExtremum w lo hi).1 ≤ (rowExtremum w lo hi).2 :=
  dot_rowmin_le_rowmax w lo hi h

theorem forall₂_le_map_fst_snd (l : List (ℚ × ℚ)) (h : ∀ p ∈ l, p.1 ≤ p.2) :
    List.Forall₂ (fun a b => a ≤ b) (l.map Prod.fst) (l.map Prod.snd) := by
  induction l with
  | nil => exact List.Forall₂.nil
  | cons p ps ih =>
    rw [List.map_cons, List.map_cons]
    exact List.Forall₂.cons (h p (List.mem_cons_self p ps))
      (ih (fun q hq => h q (List.mem_cons_of_mem p hq)))

theorem forall₂_le_map_mul {a b : List ℚ} (alpha : ℚ) (halpha : 0 ≤ alpha)
    (h : List.Forall₂ (fun x y => x ≤ y) a b) :
    List.Forall₂ (fun x y => x ≤ y)
      (a.map (fun x => x * alpha)) (b.map (fun x => x * alpha)) := by
  induction h with
  | nil => exact List.Forall₂.nil
  | cons hx _ ih =>
    rw [List.map_cons, List.map_cons]
    exact List.Forall₂.cons (mul_le_mul_of_nonneg_right hx halpha) ih

theorem forall₂_le_zipWith_addbias {a b : List ℚ} (beta : ℚ)
    (h : List.Forall₂ (fun x y => x ≤ y) a b) : ∀ (c : List ℚ),
    List.Forall₂ (fun x y => x ≤ y)
      (List.zipWith (fun x v => x + beta * v) a c)
      (List.zipWith (fun x v => x + beta * v) b c) := by
  induction h with
  | nil => intro c; exact List.Forall₂.nil
  | cons hx _ ih =>
    intro c
    cases c with
    | nil => exact List.Forall₂.nil
    | cons v vs =>
      rw [List.zipWith_cons_cons, List.zipWith_cons_cons]
      exact List.Forall₂.cons (add_le_add_right hx (beta * v)) (ih vs)

theorem forall₂_le_zipWith_minmax {a b : List ℚ}
    (h1 : List.Forall₂ (fun x y => x ≤ y) a b) : ∀ {c d : List ℚ},
    List.Forall₂ (fun x y => x ≤ y) c d →
    List.Forall₂ (fun x y => x ≤ y) (List.zipWith min a c) (List.zipWith max b d) := by
  induction h1 with
  | nil => intro c d _; exact List.Forall₂.nil
  | @cons x y xs ys hxy _ ih =>
    intro c d h2
    cases h2 with
    | nil => exact List.Forall₂.nil
    | @cons u v us vs huv htl =>
      rw [List.zipWith_cons_cons, List.zipWith_cons_cons]
      refine List.Forall₂.cons ?_ (ih htl)
      exact le_trans (min_le_left x u) (le_trans hxy (le_max_left y v))

theorem foldl_min_le (l : List ℚ) : ∀ a : ℚ, l.foldl min a ≤ a := by
  induction l with
  | nil => intro a; exact le_refl a
  | cons x xs ih =>
    intro a
    rw [List.foldl_cons]
    exact le_trans (ih (min a x)) (min_le_left a x)

theorem le_foldl_max (l : List ℚ) : ∀ a : ℚ, a ≤ l.foldl max a := by
  induction l with
  | nil => intro a; exact le_refl a
  | cons x xs ih =>
    intro a
    rw [List.foldl_cons]
    exact le_trans (le_max_left a x) (ih (max a x))

theorem listMin_le_listMax (l : List ℚ) : listMin l ≤ listMax l := by
  cases l with
  | nil => exact le_refl 0
  | cons a as => exact le_trans (foldl_min_le as a) (le_foldl_max as a)

theorem chanwise_le (out : List (List ℚ)) :
    List.Forall₂ (fun x y => x ≤ y) (chanwise out).1 (chanwise out).2 := by
  unfold chanwise
  induction out with
  | nil => exact List.Forall₂.nil
  | cons c cs ih =>
    rw [List.map_cons, List.map_cons]
    exact List.Forall₂.cons (listMin_le_listMax c) ih

theorem running_merge_le (cs : List (List ℚ × List ℚ))
    (h : ∀ c ∈ cs, List.Forall₂ (fun x y => x ≤ y) c.1 c.2) :
    List.Forall₂ (fun x y => x ≤ y) (running_merge cs).1 (running_merge cs).2 := by
  cases cs with
  | nil => exact List.Forall₂.nil
  | cons c rest =>
    unfold running_merge
    have hgen : ∀ (l : List (List ℚ × List ℚ)) (acc : List ℚ × List ℚ),
        List.Forall₂ (fun x y => x ≤ y) acc.1 acc.2 →
        (∀ p ∈ l, List.Forall₂ (fun x y => x ≤ y) p.1 p.2) →
        List.Forall₂ (fun x y => x ≤ y)
          (l.foldl (fun acc p => (List.zipWith min acc.1 p.1, List.zipWith max acc.2 p.2)) acc).1
          (l.foldl (fun acc p => (List.zipWith min acc.1 p.1, List.zipWith max acc.2 p.2)) acc).2 := by
      intro l
      induction l with
      | nil => intro acc hacc _; exact hacc
      | cons p ps ih =>
        intro acc hacc hl
        rw [List.foldl_cons]
        exact ih (List.zipWith min acc.1 p.1, List.zipWith max acc.2 p.2)
          (forall₂_le_zipWith_minmax hacc (hl p (List.mem_cons_self p ps)))
          (fun q hq => hl q (List.mem_cons_of_mem p hq))
    exact hgen rest c (h c (List.mem_cons_self c rest))
      (fun q hq => h q (List.mem_cons_of_mem c hq))

theorem calc_monotonic_range_le (samples : List (List (List ℚ))) :
    List.Forall₂ (fun x y => x ≤ y)
      (calc_monotonic_range samples).1 (calc_monotonic_range samples).2 := by
  unfold calc_monotonic_range
  refine running_merge_le (samples.map chanwise) ?_
  intro c hc
  obtain ⟨out, _, rfl⟩ := List.mem_map.mp hc
  exact chanwise_le out

theorem matvec_lower_aux (matrix : List (List ℚ)) (vmin vmax : VecBound) (x : List ℚ)
    (hrows : ∀ row ∈ matrix, row.length = x.length)
    (h1 : List.Forall₂ (fun a b => a ≤ b) (bcast vmin x.length) x)
    (h2 : List.Forall₂ (fun a b => a ≤ b) x (bcast vmax x.length)) :
    List.Forall₂ (fun a b => a ≤ b)
      (calculate_matvec_accumulator_extremum matrix vmin vmax).1 (matvec matrix x) := by
  unfold calculate_matvec_accumulator_extremum matvec
  induction matrix with
  | nil => exact List.Forall₂.nil
  | cons row rows ih =>
    rw [List.map_cons, List.map_cons]
    refine List.Forall₂.cons ?_ (ih (fun r hr => hrows r (List.mem_cons_of_mem row hr)))
    show dotprod row (row_min_vector row (bcast vmin row.length) (bcast vmax row.length))
      ≤ dotprod row x
    rw [hrows row (List.mem_cons_self row rows)]
    exact dot_rowmin_le_dot row (bcast vmin x.length) x (bcast vmax x.length) h1 h2

theorem matvec_upper_aux (matrix : List (List ℚ)) (vmin vmax : VecBound) (x : List ℚ)
    (hrows : ∀ row ∈ matrix, row.length = x.length)
    (h1 : List.Forall₂ (fun a b => a ≤ b) (bcast vmin x.length) x)
    (h2 : List.Forall₂ (fun a b => a ≤ b) x (bcast vmax x.length)) :
    List.Forall₂ (fun a b => a ≤ b)
      (matvec matrix x) (calculate_matvec_accumulator_extremum matrix vmin vmax).2 := by
  unfold calculate_matvec_accumulator_extremum matvec
  induction matrix with
  | nil => exact List.Forall₂.nil
  | cons row rows ih =>
    rw [List.map_cons, List.map_cons]
    refine List.Forall₂.cons ?_ (ih (fun r hr => hrows r (List.mem_cons_of_mem row hr)))
    show dotprod row x
      ≤ dotprod row (row_max_vector row (bcast vmin row.length) (bcast vmax row.length))
    rw [hrows row (List.mem_cons_self row rows)]
    exact dot_le_dot_rowmax row (bcast vmin x.length) x (bcast vmax x.length) h1 h2

/-- C1.  Interval-kernel soundness: for every coefficient matrix, every
interval `(vmin, vmax)` (scalar or length-cols vector) and every concrete
vector `x` with `vmin ≤ x ≤ vmax` elementwise, the pair `(acc_min,
acc_max)` returned by `calculate_matvec_accumulator_extremum` satisfies
`acc_min ≤ A·x ≤ acc_max` elementwise; per row, the maximum is the dot
product against the choice vector taking `vmax` where the coefficient is
positive and `vmin` where it is negative, and the minimum against the
opposite choice. -/
theorem matvec_accumulator_extremum_sound (matrix : List (List ℚ))
    (vmin vmax : VecBound) (x : List ℚ)
    (hrows : ∀ row ∈ matrix, row.length = x.length)
    (h1 : List.Forall₂ (fun a b => a ≤ b) (bcast vmin x.length) x)
    (h2 : List.Forall₂ (fun a b => a ≤ b) x (bcast vmax x.length)) :
    List.Forall₂ (fun a b => a ≤ b)
      (calculate_matvec_accumulator_extremum matrix vmin vmax).1 (matvec matrix x) ∧
    List.Forall₂ (fun a b => a ≤ b)
      (matvec matrix x) (calculate_matvec_accumulator_extremum matrix vmin vmax).2 ∧
    (calculate_matvec_accumulator_extremum matrix vmin vmax).2
      = matrix.map (fun row =>
          dotprod row (row_max_vector row (bcast vmin row.length) (bcast vmax row.length))) ∧
    (calculate_matvec_accumulator_extremum matrix vmin vmax).1
      = matrix.map (fun row =>
          dotprod row (row_min_vector row (bcast vmin row.length) (bcast vmax row.length))) :=
  ⟨matvec_lower_aux matrix vmin vmax x hrows h1 h2,
   matvec_upper_aux matrix vmin vmax x hrows h1 h2, rfl, rfl⟩

/-- Witness for C1 at the spec's Scenario 1 data: weights `[[1,-1],[2,3]]`,
input interval `([0,0],[1,1])` and the concrete point `x = [1,0]`. -/
theorem matvec_accumulator_extremum_sound_witness :
    (∀ row ∈ [[(1:ℚ), -1], [2, 3]], row.length = [(1:ℚ), 0].length) ∧
    List.Forall₂ (fun a b => a ≤ b)
      (bcast (VecBound.vec [0, 0]) [(1:ℚ), 0].length) [(1:ℚ), 0] ∧
    List.Forall₂ (fun a b => a ≤ b)
      [(1:ℚ), 0] (bcast (VecBound.vec [1, 1]) [(1:ℚ), 0].length) ∧
    (List.Forall₂ (fun a b => a ≤ b)
      (calculate_matvec_accumulator_extremum [[(1:ℚ), -1], [2, 3]]
        (VecBound.vec [0, 0]) (VecBound.vec [1, 1])).1
      (matvec [[(1:ℚ), -1], [2, 3]] [1, 0]) ∧
     List.Forall₂ (fun a b => a ≤ b)
      (matvec [[(1:ℚ), -1], [2, 3]] [1, 0])
      (calculate_matvec_accumulator_extremum [[(1:ℚ), -1], [2, 3]]
        (VecBound.vec [0, 0]) (VecBound.vec [1, 1])).2 ∧
     (calculate_matvec_accumulator_extremum [[(1:ℚ), -1], [2, 3]]
        (VecBound.vec [0, 0]) (VecBound.vec [1, 1])).2
       = [[(1:ℚ), -1], [2, 3]].map (fun row =>
           dotprod row (row_max_vector row (bcast (VecBound.vec [0, 0]) row.length)
             (bcast (VecBound.vec [1, 1]) row.length))) ∧
     (calculate_matvec_accumulator_extremum [[(1:ℚ), -1], [2, 3]]
        (VecBound.vec [0, 0]) (VecBound.vec [1, 1])).1
       = [[(1:ℚ), -1], [2, 3]].map (fun row =>
           dotprod row (row_min_vector row (bcast (VecBound.vec [0, 0]) row.length)
             (bcast (VecBound.vec [1, 1]) row.length)))) :=
  ⟨by decide, by decide, by decide,
   matvec_accumulator_extremum_sound [[(1:ℚ), -1], [2, 3]]
     (VecBound.vec [0, 0]) (VecBound.vec [1, 1]) [1, 0]
     (by decide) (by decide) (by decide)⟩

theorem matvec_extremum_order (matrix : List (List ℚ)) {vmin vmax : VecBound}
    (h : VB_le vmin vmax) :
    List.Forall₂ (fun a b => a ≤ b)
      (calculate_matvec_accumulator_extremum matrix vmin vmax).1
      (calculate_matvec_accumulator_extremum matrix vmin vmax).2 := by
  unfold calculate_matvec_accumulator_extremum
  induction matrix with
  | nil => exact List.Forall₂.nil
  | cons row rows ih =>
    rw [List.map_cons, List.map_cons]
    refine List.Forall₂.cons ?_ ih
    exact dot_rowmin_le_rowmax row (bcast vmin row.length) (bcast vmax row.length)
      (VB_le_bcast h row.length)

theorem calc_gemm_range_order (alpha beta : ℚ) (weights : List (List ℚ))
    (bias : Option (List ℚ)) (vmin vmax : VecBound)
    (halpha : 0 ≤ alpha) (h : VB_le vmin vmax) :
    List.Forall₂ (fun a b => a ≤ b)
      (calc_gemm_range alpha beta weights bias vmin vmax).1
      (calc_gemm_range alpha beta weights bias vmin vmax).2 := by
  have hk := matvec_extremum_order weights h
  unfold calc_gemm_range
  cases bias with
  | none => exact forall₂_le_map_mul alpha halpha hk
  | some bs => exact forall₂_le_zipWith_addbias beta (forall₂_le_map_mul alpha halpha hk) bs

theorem calc_conv_range_order (w_is_init : Bool) (n : Nat)
    (wmin wmax : List (List (List ℚ))) (g : Option Int) (vmin vmax : VecBound)
    (h : VB_le vmin vmax) :
    rangeOrderedB (calc_conv_range w_is_init n wmin wmax g vmin vmax) := by
  unfold calc_conv_range
  by_cases hn : n ≠ 2
  · rw [if_pos hn]; trivial
  rw [if_neg hn]
  by_cases hw : w_is_init = false
  · rw [if_pos hw]; trivial
  rw [if_neg hw]
  by_cases hww : wmin ≠ wmax
  · rw [if_pos hww]; trivial
  rw [if_neg hww]
  cases vmin with
  | scl a =>
    cases vmax with
    | scl b =>
      show List.Forall₂ (fun a b => a ≤ b) _ _
      refine forall₂_le_map_fst_snd _ ?_
      intro p hp
      obtain ⟨i, _, rfl⟩ := List.mem_map.mp hp
      exact rowExtremum_le _ (VB_le_bcast h _)
    | vec b => exact absurd h (fun hf => hf)
  | vec a =>
    cases vmax with
    | scl b => exact absurd h (fun hf => hf)
    | vec b =>
      show List.Forall₂ (fun a b => a ≤ b) _ _
      refine forall₂_le_map_fst_snd _ ?_
      intro p hp
      obtain ⟨i, _, rfl⟩ := List.mem_map.mp hp
      dsimp only
      split
      · exact rowExtremum_le _
          (List.forall₂_take _ (List.forall₂_drop _ (forall₂_le_repeatEach _ h)))
      · exact rowExtremum_le _ (forall₂_le_repeatEach _ h)

/-- C5 counterexample.  The Gemm rule scales both kernel bounds by `alpha`
(range_analysis.py lines 109-110); with the legal attribute value
`alpha = -1`, constant weights `[[1]]` and the well-ordered input interval
`(1, 2)`, the produced range is `([-1], [-2])`, violating
`range.min ≤ range.max` claimed for all kernel-based affine rules. -/
theorem calc_gemm_range_negative_alpha_cex :
    calc_gemm_range (-1) 0 [[1]] none (VecBound.scl 1) (VecBound.scl 2) = ([-1], [-2]) ∧
    ¬ List.Forall₂ (fun a b : ℚ => a ≤ b) [-1] [-2] := by
  constructor
  · norm_num [calc_gemm_range, calculate_matvec_accumulator_extremum, row_min_vector,
      row_max_vector, dotprod, bcast, List.replicate_one]
  · decide

/-- C5 amended.  Range-order invariant, scoped to where the code actually
guarantees it: the interval kernel, the Gemm rule when `alpha ≥ 0`, the
Conv rule whenever it succeeds, the monotonic/sampling rule, and the
declared-range rule all produce `range.min ≤ range.max` elementwise from
well-ordered inputs (a stuck channel with `min = max` included); the Gemm
rule with negative `alpha` violates the invariant (see the
counterexample). -/
theorem range_order_invariant_amended :
    (∀ (matrix : List (List ℚ)) (vmin vmax : VecBound), VB_le vmin vmax →
      List.Forall₂ (fun a b => a ≤ b)
        (calculate_matvec_accumulator_extremum matrix vmin vmax).1
        (calculate_matvec_accumulator_extremum matrix vmin vmax).2) ∧
    (∀ (alpha beta : ℚ) (weights : List (List ℚ)) (bias : Option (List ℚ))
        (vmin vmax : VecBound), 0 ≤ alpha → VB_le vmin vmax →
      List.Forall₂ (fun a b => a ≤ b)
        (calc_gemm_range alpha beta weights bias vmin vmax).1
        (calc_gemm_range alpha beta weights bias vmin vmax).2) ∧
    (∀ (w_is_init : Bool) (n : Nat) (wmin wmax : List (List (List ℚ)))
        (g : Option Int) (vmin vmax : VecBound), VB_le vmin vmax →
      rangeOrderedB (calc_conv_range w_is_init n wmin wmax g vmin vmax)) ∧
    (∀ samples : List (List (List ℚ)),
      List.Forall₂ (fun a b => a ≤ b)
        (calc_monotonic_range samples).1 (calc_monotonic_range samples).2) ∧
    (∀ dt_min dt_max : ℚ, dt_min ≤ dt_max →
      (calc_range_outdtype dt_min dt_max).1 ≤ (calc_range_outdtype dt_min dt_max).2) :=
  ⟨fun m _ _ h => matvec_extremum_order m h,
   fun a b w bias vmin vmax ha h => calc_gemm_range_order a b w bias vmin vmax ha h,
   fun w n wmin wmax g vmin vmax h => calc_conv_range_order w n wmin wmax g vmin vmax h,
   calc_monotonic_range_le,
   fun _ _ h => h⟩

/-- Witness for C5 at concrete inputs for each conjunct. -/
theorem range_order_invariant_amended_witness :
    VB_le (VecBound.scl 0) (VecBound.scl 1) ∧ (0:ℚ) ≤ 2 ∧ (2:ℚ) ≤ 3 ∧
    List.Forall₂ (fun a b => a ≤ b)
      (calculate_matvec_accumulator_extremum [[(1:ℚ), -1]]
        (VecBound.scl 0) (VecBound.scl 1)).1
      (calculate_matvec_accumulator_extremum [[(1:ℚ), -1]]
        (VecBound.scl 0) (VecBound.scl 1)).2 ∧
    List.Forall₂ (fun a b => a ≤ b)
      (calc_gemm_range 2 5 [[(1:ℚ), -1]] none (VecBound.scl 0) (VecBound.scl 1)).1
      (calc_gemm_range 2 5 [[(1:ℚ), -1]] none (VecBound.scl 0) (VecBound.scl 1)).2 ∧
    rangeOrderedB (calc_conv_range true 2 [[[(1:ℚ)]]] [[[(1:ℚ)]]] (some 2)
      (VecBound.scl 0) (VecBound.scl 1)) ∧
    List.Forall₂ (fun a b => a ≤ b)
      (calc_monotonic_range [[[(1:ℚ), 2]]]).1 (calc_monotonic_range [[[(1:ℚ), 2]]]).2 ∧
    (calc_range_outdtype 2 3).1 ≤ (calc_range_outdtype 2 3).2 :=
  ⟨by decide, by decide, by decide,
   range_order_invariant_amended.1 [[(1:ℚ), -1]] (VecBound.scl 0) (VecBound.scl 1) (by decide),
   range_order_invariant_amended.2.1 2 5 [[(1:ℚ), -1]] none
     (VecBound.scl 0) (VecBound.scl 1) (by decide) (by decide),
   range_order_invariant_amended.2.2.1 true 2 [[[(1:ℚ)]]] [[[(1:ℚ)]]] (some 2)
     (VecBound.scl 0) (VecBound.scl 1) (by decide),
   range_order_invariant_amended.2.2.2.1 [[[(1:ℚ), 2]]],
   range_order_invariant_amended.2.2.2.2 2 3 (by decide)⟩

/-- C3 counterexample.  A Conv with 4 output channels, `group = 2`
(so `1 < groups < out-channels`, neither ungrouped nor fully depthwise) and
exactly two inputs does NOT fail fast: `calc_conv_range` treats any
`groups > 1` as depthwise (range_analysis.py line 168, with only a
`TODO smarter check` comment) and produces a range. -/
theorem calc_conv_range_grouped_cex :
    (1 : Int) < 2 ∧ (2 : Int) < 4 ∧
    ([[[(1:ℚ)]], [[1]], [[1]], [[1]]] : List (List (List ℚ))).length = 4 ∧
    exceptOk (calc_conv_range true 2 [[[(1:ℚ)]], [[1]], [[1]], [[1]]]
      [[[(1:ℚ)]], [[1]], [[1]], [[1]]] (some 2)
      (VecBound.scl 0) (VecBound.scl 1)) = true := by
  refine ⟨by decide, by decide, by decide, ?_⟩
  decide

/-- C3 amended.  The Conv rule fails fast exactly on the bias check: a
third input (`len(node.input) != 2`) raises, while the grouping attribute
is never validated — for any `group` value whatsoever (including
`1 < groups < out-channels`), two inputs with constant initializer weights
make the rule succeed and produce a range. -/
theorem calc_conv_range_bias_only_check (w_is_init : Bool) (n : Nat)
    (wmin wmax : List (List (List ℚ))) (g : Option Int) (vmin vmax : VecBound) :
    (n ≠ 2 → calc_conv_range w_is_init n wmin wmax g vmin vmax
      = Except.error "Found unsupported Conv with bias") ∧
    (n = 2 → w_is_init = true → wmin = wmax →
      exceptOk (calc_conv_range w_is_init n wmin wmax g vmin vmax) = true) := by
  constructor
  · intro hn
    unfold calc_conv_range
    rw [if_pos hn]
  · intro hn hw hww
    subst hn; subst hw; subst hww
    unfold calc_conv_range
    rw [if_neg (by decide : ¬ ((2:Nat) ≠ 2))]
    rw [if_neg (by decide : ¬ (true = false))]
    rw [if_neg (fun hcon : wmin ≠ wmin => hcon rfl)]
    cases vmin <;> cases vmax <;> rfl

/-- Witness for C3: a three-input Conv errors with the bias message, and a
two-input Conv with grouping attribute `group = 7` succeeds. -/
theorem calc_conv_range_bias_only_check_witness :
    ((3:Nat) ≠ 2) ∧
    calc_conv_range true 3 [[[(1:ℚ)]]] [[[(1:ℚ)]]] (some 7)
      (VecBound.scl 0) (VecBound.scl 1)
      = Except.error "Found unsupported Conv with bias" ∧
    exceptOk (calc_conv_range true 2 [[[(1:ℚ)]]] [[[(1:ℚ)]]] (some 7)
      (VecBound.scl 0) (VecBound.scl 1)) = true :=
  ⟨by decide,
   (calc_conv_range_bias_only_check true 3 [[[(1:ℚ)]]] [[[(1:ℚ)]]] (some 7)
     (VecBound.scl 0) (VecBound.scl 1)).1 (by decide),
   (calc_conv_range_bias_only_check true 2 [[[(1:ℚ)]]] [[[(1:ℚ)]]] (some 7)
     (VecBound.scl 0) (VecBound.scl 1)).2 rfl rfl rfl⟩

/-- C4 counterexample.  A node with two non-initializer outputs where the
second output has all channels stuck (`min == max`) and an all-equal
per-channel range: the walker post-processing leaves the second output's
entry untouched and reports no stuck channels at all, because only
`node.output[0]` is examined (range_analysis.py lines 661-670).  The claim
would require a stuck entry for the second output and its collapse to a
scalar range (as the accompanying equalities show `stuckPairs` and
`simplify_range` would produce on it). -/
theorem walker_postproc_second_output_cex :
    walker_postproc [("o1", ⟨(REl.arr [0, 1], REl.arr [1, 2]), false⟩),
        ("o2", ⟨(REl.arr [5, 5], REl.arr [5, 5]), false⟩)]
      = ([("o1", ⟨(REl.arr [0, 1], REl.arr [1, 2]), false⟩),
          ("o2", ⟨(REl.arr [5, 5], REl.arr [5, 5]), false⟩)], []) ∧
    stuckPairs [5, 5] [5, 5] = [(0, 5), (1, 5)] ∧
    simplify_range (REl.arr [(5:ℚ), 5], REl.arr [5, 5]) = (REl.scl 5, REl.scl 5) := by
  refine ⟨?_, ?_, ?_⟩ <;> decide

/-- C4 amended.  The walker creates an entry for every output (the result
store keeps one entry per output, the tail untouched), but stuck-channel
detection and range simplification are applied only to the FIRST output,
and only when it is not an initializer; any stuck-report additions concern
the first output alone. -/
theorem walker_postproc_first_output_only (name : String) (ri : TRangeInfo)
    (rest : List (String × TRangeInfo)) :
    ((walker_postproc ((name, ri) :: rest)).1.length = rest.length + 1) ∧
    ((walker_postproc ((name, ri) :: rest)).1.tail = rest) ∧
    (∀ e ∈ (walker_postproc ((name, ri) :: rest)).2, e.1 = name) ∧
    (ri.is_init = true → walker_postproc ((name, ri) :: rest) = ((name, ri) :: rest, [])) ∧
    (ri.is_init = false →
      (walker_postproc ((name, ri) :: rest)).1
        = (name, { ri with range := simplify_range ri.range }) :: rest ∧
      (walker_postproc ((name, ri) :: rest)).2
        = if stuck_of_range ri.range = [] then []
          else [(name, stuck_of_range ri.range)]) := by
  by_cases hri : ri.is_init <;> by_cases hsc : stuck_of_range ri.range = [] <;>
    simp [walker_postproc, hri, hsc]

/-- Witness for C4: a two-output store whose first output is dynamic. -/
theorem walker_postproc_first_output_only_witness :
    ((⟨(REl.arr [(3:ℚ), 3], REl.arr [3, 4]), false⟩ : TRangeInfo).is_init = false) ∧
    ((walker_postproc [("y", ⟨(REl.arr [(3:ℚ), 3], REl.arr [3, 4]), false⟩),
        ("z", ⟨(REl.arr [0], REl.arr [1]), false⟩)]).1
      = ("y", { (⟨(REl.arr [(3:ℚ), 3], REl.arr [3, 4]), false⟩ : TRangeInfo) with
          range := simplify_range (REl.arr [(3:ℚ), 3], REl.arr [3, 4]) })
        :: [("z", ⟨(REl.arr [0], REl.arr [1]), false⟩)] ∧
     (walker_postproc [("y", ⟨(REl.arr [(3:ℚ), 3], REl.arr [3, 4]), false⟩),
        ("z", ⟨(REl.arr [0], REl.arr [1]), false⟩)]).2
      = if stuck_of_range (REl.arr [(3:ℚ), 3], REl.arr [3, 4]) = [] then []
        else [("y", stuck_of_range (REl.arr [(3:ℚ), 3], REl.arr [3, 4]))]) :=
  ⟨rfl,
   (walker_postproc_first_output_only "y"
     ⟨(REl.arr [(3:ℚ), 3], REl.arr [3, 4]), false⟩
     [("z", ⟨(REl.arr [0], REl.arr [1]), false⟩)]).2.2.2.2 rfl⟩

theorem simplify_range_arr_cons (a b : ℚ) (as bs : List ℚ) :
    simplify_range (REl.arr (a :: as), REl.arr (b :: bs))
      = if ((a :: as).all (fun x => x == a) && (b :: bs).all (fun x => x == b)) = true
        then (REl.scl a, REl.scl b)
        else (REl.arr (a :: as), REl.arr (b :: bs)) := rfl

/-- C6.  Simplification idempotence and collapse:
`simplify_range (simplify_range r) = simplify_range r` for every range
pair, and a per-channel range whose min entries all equal `a` and whose max
entries all equal `b` simplifies to the scalar range `(a, b)`. -/
theorem simplify_range_idem_and_collapse :
    (∀ r : REl × REl, simplify_range (simplify_range r) = simplify_range r) ∧
    (∀ (a b : ℚ) (as bs : List ℚ),
      as.all (fun x => x == a) = true → bs.all (fun x => x == b) = true →
      simplify_range (REl.arr (a :: as), REl.arr (b :: bs)) = (REl.scl a, REl.scl b)) := by
  constructor
  · rintro ⟨rmin, rmax⟩
    rcases rmin with v | vs
    · rcases rmax with w | ws
      · rfl
      · rcases ws with _ | ⟨b, bs⟩ <;> rfl
    · rcases vs with _ | ⟨a, as⟩
      · rcases rmax with w | ws
        · rfl
        · rcases ws with _ | ⟨b, bs⟩ <;> rfl
      · rcases rmax with w | ws
        · rfl
        · rcases ws with _ | ⟨b, bs⟩
          · rfl
          · rw [simplify_range_arr_cons]
            by_cases hcond :
                ((a :: as).all (fun x => x == a) && (b :: bs).all (fun x => x == b)) = true
            · rw [if_pos hcond]; rfl
            · rw [if_neg hcond, simplify_range_arr_cons, if_neg hcond]
  · intro a b as bs ha hb
    have hc : ((a :: as).all (fun x => x == a) && (b :: bs).all (fun x => x == b)) = true := by
      simp [List.all_cons, ha, hb]
    rw [simplify_range_arr_cons, if_pos hc]

/-- Witness for C6: a non-collapsing range for idempotence, and an
all-equal three-channel range for the collapse. -/
theorem simplify_range_idem_and_collapse_witness :
    ([(7:ℚ), 7].all (fun x => x == 7) = true) ∧
    ([(9:ℚ), 9].all (fun x => x == 9) = true) ∧
    simplify_range (simplify_range (REl.arr [(1:ℚ), 2], REl.arr [3, 4]))
      = simplify_range (REl.arr [(1:ℚ), 2], REl.arr [3, 4]) ∧
    simplify_range (REl.arr [(7:ℚ), 7, 7], REl.arr [9, 9, 9]) = (REl.scl 7, REl.scl 9) :=
  ⟨by decide, by decide,
   simplify_range_idem_and_collapse.1 (REl.arr [(1:ℚ), 2], REl.arr [3, 4]),
   simplify_range_idem_and_collapse.2 7 9 [7, 7] [9, 9] (by decide) (by decide)⟩

theorem stuckPairsAux_cons (k : Nat) (a b : ℚ) (as bs : List ℚ) :
    stuckPairsAux k (a :: as) (b :: bs)
      = (if a = b then [(k, a)] else []) ++ stuckPairsAux (k + 1) as bs := rfl

theorem stuckPairsAux_eq_nil : ∀ (as : List ℚ) (bs : List ℚ) (k : Nat),
    (∀ j, j < as.length → as.getD j 0 ≠ bs.getD j 0) →
    stuckPairsAux k as bs = [] := by
  intro as
  induction as with
  | nil => intro bs k _; cases bs <;> rfl
  | cons a as ih =>
    intro bs k h
    cases bs with
    | nil => rfl
    | cons b bs =>
      have h0 : a ≠ b := by simpa using h 0 (Nat.succ_pos _)
      rw [stuckPairsAux_cons, if_neg h0, List.nil_append]
      exact ih bs (k + 1) (fun j hj => by simpa using h (j + 1) (Nat.succ_lt_succ hj))

theorem stuckPairsAux_single : ∀ (mins maxs : List ℚ) (k i : Nat),
    mins.length = maxs.length → i < mins.length →
    mins.getD i 0 = maxs.getD i 0 →
    (∀ j, j < mins.length → mins.getD j 0 = maxs.getD j 0 → j = i) →
    stuckPairsAux k mins maxs = [(k + i, mins.getD i 0)] := by
  intro mins
  induction mins with
  | nil => intro maxs k i _ hi; exact absurd hi (Nat.not_lt_zero i)
  | cons a as ih =>
    intro maxs k i hlen hi heq huniq
    cases maxs with
    | nil => simp at hlen
    | cons b bs =>
      rw [stuckPairsAux_cons]
      by_cases hab : a = b
      · have hi0 : 0 = i := huniq 0 (Nat.succ_pos _) (by simpa using hab)
        have hi0s := hi0.symm
        subst hi0s
        rw [if_pos hab]
        have htail : stuckPairsAux (k + 1) as bs = [] := by
          apply stuckPairsAux_eq_nil
          intro j hj hjeq
          have hcon := huniq (j + 1) (Nat.succ_lt_succ hj) (by simpa using hjeq)
          omega
        rw [htail]
        simp
      · cases i with
        | zero => exact absurd (by simpa using heq) hab
        | succ ip =>
          rw [if_neg hab, List.nil_append]
          have hrec := ih bs (k + 1) ip (by simpa using hlen) (by simpa using hi)
            (by simpa using heq)
            (fun j hj hjeq => by
              have hcon := huniq (j + 1) (Nat.succ_lt_succ hj) (by simpa using hjeq)
              omega)
          rw [hrec]
          have harith : k + 1 + ip = k + (ip + 1) := by omega
          rw [harith]
          simp

/-- C7.  Stuck-channel detection correctness: when a per-channel range has
exactly one channel `i` with `min[i] = max[i]`, the detected stuck pairs
are exactly `[(i, min[i])]`, and the zero-stuck filtering keeps index `i`
exactly when the stuck value is 0. -/
theorem stuck_channel_single_correct (mins maxs : List ℚ) (i : Nat)
    (hlen : mins.length = maxs.length) (hi : i < mins.length)
    (heq : mins.getD i 0 = maxs.getD i 0)
    (huniq : ∀ j, j < mins.length → mins.getD j 0 = maxs.getD j 0 → j = i) :
    stuckPairs mins maxs = [(i, mins.getD i 0)] ∧
    zerostuckChans (stuckPairs mins maxs)
      = if mins.getD i 0 = 0 then [i] else [] := by
  have h1 : stuckPairs mins maxs = [(i, mins.getD i 0)] := by
    have hmain := stuckPairsAux_single mins maxs 0 i hlen hi heq huniq
    simpa [stuckPairs] using hmain
  refine ⟨h1, ?_⟩
  rw [h1]
  generalize mins.getD i 0 = v
  by_cases hz : v = 0
  · simp [zerostuckChans, hz]
  · simp [zerostuckChans, hz]

/-- Witness for C7: a nonzero stuck value at index 0 of a 3-channel range,
and a zero stuck value at index 0 of a 2-channel range. -/
theorem stuck_channel_single_correct_witness :
    ([(1:ℚ), 2, 3].length = [(1:ℚ), 5, 7].length) ∧
    (0 < [(1:ℚ), 2, 3].length) ∧
    ([(1:ℚ), 2, 3].getD 0 0 = [(1:ℚ), 5, 7].getD 0 0) ∧
    (∀ j, j < [(1:ℚ), 2, 3].length →
      [(1:ℚ), 2, 3].getD j 0 = [(1:ℚ), 5, 7].getD j 0 → j = 0) ∧
    (stuckPairs [(1:ℚ), 2, 3] [1, 5, 7] = [(0, 1)] ∧
     zerostuckChans (stuckPairs [(1:ℚ), 2, 3] [1, 5, 7])
       = if [(1:ℚ), 2, 3].getD 0 0 = 0 then [0] else []) ∧
    (stuckPairs [(0:ℚ), 2] [0, 3] = [(0, 0)] ∧
     zerostuckChans (stuckPairs [(0:ℚ), 2] [0, 3])
       = if [(0:ℚ), 2].getD 0 0 = 0 then [0] else []) :=
  ⟨by decide, by decide, by decide, by decide,
   stuck_channel_single_correct [(1:ℚ), 2, 3] [1, 5, 7] 0
     (by decide) (by decide) (by decide) (by decide),
   stuck_channel_single_correct [(0:ℚ), 2] [0, 3] 0
     (by decide) (by decide) (by decide) (by decide)⟩

theorem report_refilter_aux (l : List (String × List (Nat × ℚ))) :
    refilter_zero l = l.filterMap (fun p =>
      let z := zerostuckChans p.2
      if z = [] then none else some (p.1, z)) := by
  unfold refilter_zero zerostuckChans
  induction l with
  | nil => rfl
  | cons p ps ih =>
    rw [List.filterMap_cons, List.filterMap_cons, ih]
    by_cases h : (p.2.filter (fun e => e.2 = 0)) = []
    · simp [h]
    · have h2 : (p.2.filter (fun e => e.2 = 0)).map Prod.fst ≠ [] := by
        simpa [List.map_eq_nil_iff] using h
      simp [h, h2]

/-- C8.  Report-mode equivalence: re-filtering the stuck-channel-mode
result to the entries stuck at zero (dropping values and emptied tensors)
yields exactly the zero-stuck-channel-mode result, for every stuck-channel
store and key-filter configuration. -/
theorem report_mode_equivalence (stuck : List (String × List (Nat × ℚ)))
    (useF : Bool) (kf : String → Bool) :
    refilter_zero (report_stuck stuck useF kf) = report_zerostuck stuck useF kf := by
  unfold report_stuck report_zerostuck
  exact report_refilter_aux (dblKeyFilter useF kf stuck)

/-- C9.  Initializer seeding: a rational is `isIntValued` exactly when it
is an integer, and the per-tensor seeding of `calc_range_all_initializers`
attaches `int_range = (t, t)`, `scale = [1.0]`, `bias = [0.0]` exactly for
all-integer-valued constants, while a constant with any non-integer
element receives no integer info (all three optional fields absent). -/
theorem init_seeding_integer_info :
    (∀ v : ℚ, isIntValued v = true ↔ ∃ k : ℤ, v = (k : ℚ)) ∧
    (∀ t : List ℚ, t.all isIntValued = true →
      seed_init_tensor t
        = { range := (t, t), int_range := some (t, t),
            scale := some [1], bias := some [0], is_init := true }) ∧
    (∀ t : List ℚ, t.all isIntValued = false →
      seed_init_tensor t
        = { range := (t, t), int_range := none, scale := none,
            bias := none, is_init := true }) := by
  refine ⟨?_, ?_, ?_⟩
  · intro v
    constructor
    · intro h
      refine ⟨v.num, ?_⟩
      have hden : v.den = 1 := by simpa [isIntValued] using h
      exact ((Rat.den_eq_one_iff v).mp hden).symm
    · rintro ⟨k, rfl⟩
      simp [isIntValued, Rat.den_intCast]
  · intro t h
    simp [seed_init_tensor, h]
  · intro t h
    simp [seed_init_tensor, h]

/-- Witness for C9: an all-integer constant and a constant containing the
non-integer rational 1/2. -/
theorem init_seeding_integer_info_witness :
    ([(2:ℚ), -3].all isIntValued = true) ∧
    ([Rat.mk' 1 2 (by decide) (by decide)].all isIntValued = false) ∧
    seed_init_tensor [(2:ℚ), -3]
      = { range := ([(2:ℚ), -3], [(2:ℚ), -3]),
            int_range := some ([(2:ℚ), -3], [(2:ℚ), -3]),
            scale := some [1], bias := some [0], is_init := true } ∧
    seed_init_tensor [Rat.mk' 1 2 (by decide) (by decide)]
      = { range := ([Rat.mk' 1 2 (by decide) (by decide)],
                    [Rat.mk' 1 2 (by decide) (by decide)]),
            int_range := none, scale := none, bias := none, is_init := true } :=
  ⟨by decide, by decide,
   init_seeding_integer_info.2.1 [(2:ℚ), -3] (by decide),
   init_seeding_integer_info.2.2 [Rat.mk' 1 2 (by decide) (by decide)] (by decide)⟩

theorem seed_inputs_go_some (r : ℚ × ℚ) : ∀ l : List (ℚ × ℚ),
    seed_inputs_go (some r) l = List.replicate l.length r := by
  intro l
  induction l with
  | nil => rfl
  | cons d rest ih =>
    rw [show seed_inputs_go (some r) (d :: rest) = r :: seed_inputs_go (some r) rest from rfl,
      ih, List.length_cons, List.replicate_succ]

/-- C10.  Input seeding with no configured interval: the running
`range_min`/`range_max` are assigned from the first graph input's datatype
and never recomputed, so every subsequent input is seeded with the first
input's pair regardless of its own datatype-derived pair. -/
theorem input_seeding_reuses_first (d : ℚ × ℚ) (rest : List (ℚ × ℚ)) :
    seed_inputs (d :: rest) = d :: List.replicate rest.length d := by
  rw [show seed_inputs (d :: rest) = d :: seed_inputs_go (some d) rest from rfl,
    seed_inputs_go_some]

theorem npround_intCast (k : ℤ) : npround ((k : ℚ)) = k := by
  simp only [npround, Int.floor_intCast, sub_self]
  norm_num

theorem npround_half : npround (1 / 2 : ℚ) = 0 := by
  have hf : ⌊(1 / 2 : ℚ)⌋ = 0 := by
    rw [Int.floor_eq_iff]
    norm_num
  simp only [npround, hf]
  norm_num

theorem npround_five_half : npround (5 / 2 : ℚ) = 2 := by
  have hf : ⌊(5 / 2 : ℚ)⌋ = 2 := by
    rw [Int.floor_eq_iff]
    norm_num
  simp only [npround, hf]
  norm_num

/-- C2 counterexample.  The ReLU reconstruction rule at scale 2, bias 0 on
the real output range `(1, 5)` (endpoints off the integer grid) rounds the
inverted endpoints to the integer range `(0, 2)`; reconstructing gives
`2*0+0 = 0 ≠ 1` and `2*2+0 = 4 ≠ 5`, so the scaled-integer consistency
equation fails (by 1, far beyond floating tolerance). -/
theorem calc_intrange_relu_offgrid_cex :
    calc_intrange_relu 2 0 1 5 = ((0, 2), 2, 0) ∧
    ¬ intinfo_consistent 1 5 0 2 2 0 := by
  constructor
  · have e1 : ((1:ℚ) - 0) / 2 = 1 / 2 := by norm_num
    have e5 : ((5:ℚ) - 0) / 2 = 5 / 2 := by norm_num
    simp only [calc_intrange_relu, e1, e5, npround_half, npround_five_half]
    norm_num [Prod.ext_iff]
  · intro hcon
    have h1 := hcon.1
    norm_num at h1

/-- C2 amended.  Scaled-integer consistency holds exactly (in the real
field) for the linear-operator scale/bias derivation whenever the integer
interval is non-degenerate (`int_min ≠ int_max`); for the ReLU rule it
holds when the real output endpoints lie on the integer grid
`scale*k + bias` (then rounding is exact and the rule reproduces the grid
points), but not in general (see the counterexample). -/
theorem intrange_consistency_amended :
    (∀ rmin rmax imin imax : ℚ, imin ≠ imax →
      intinfo_consistent rmin rmax imin imax
        (calc_intrange_linear_scalebias rmin rmax imin imax).1
        (calc_intrange_linear_scalebias rmin rmax imin imax).2) ∧
    (∀ (scale bias : ℚ) (a b : ℤ), scale ≠ 0 →
      calc_intrange_relu scale bias (scale * a + bias) (scale * b + bias)
        = ((((a : ℚ)), ((b : ℚ))), scale, bias) ∧
      intinfo_consistent (scale * a + bias) (scale * b + bias) a b scale bias) := by
  constructor
  · intro rmin rmax imin imax h
    have hne : imax - imin ≠ 0 := sub_ne_zero_of_ne (Ne.symm h)
    unfold intinfo_consistent calc_intrange_linear_scalebias
    dsimp only
    constructor
    · field_simp
      ring
    · field_simp
  · intro scale bias a b hs
    have ha : (scale * (a:ℚ) + bias - bias) / scale = (a : ℚ) := by
      field_simp
    have hb : (scale * (b:ℚ) + bias - bias) / scale = (b : ℚ) := by
      field_simp
    constructor
    · simp only [calc_intrange_relu, ha, hb, npround_intCast]
    · exact ⟨rfl, rfl⟩

/-- Witness for C2: the linear derivation on real range `(0, 4)` with
integer range `(0, 2)`, and the ReLU rule on the grid `2k + 1` with
integer endpoints 0 and 3. -/
theorem intrange_consistency_amended_witness :
    ((0:ℚ) ≠ 2) ∧ ((2:ℚ) ≠ 0) ∧
    intinfo_consistent 0 4 0 2
      (calc_intrange_linear_scalebias 0 4 0 2).1
      (calc_intrange_linear_scalebias 0 4 0 2).2 ∧
    (calc_intrange_relu 2 1 (2 * ((0:ℤ):ℚ) + 1) (2 * ((3:ℤ):ℚ) + 1)
        = ((((0:ℤ):ℚ), ((3:ℤ):ℚ)), 2, 1) ∧
     intinfo_consistent (2 * ((0:ℤ):ℚ) + 1) (2 * ((3:ℤ):ℚ) + 1)
       ((0:ℤ):ℚ) ((3:ℤ):ℚ) 2 1) :=
  ⟨by decide, by decide,
   intrange_consistency_amended.1 0 4 0 2 (by decide),
   intrange_consistency_amended.2 2 1 0 3 (by decide)⟩
